import Mathlib

/-!
Verification of the batch-submission controller of the add10wordsUI repository.

The repository contains two variants of the `AddWords` component:
* `src/src/components/AddWords.tsx` — reducer-based state, optimistic submit
  with snapshot rollback (namespace `RApp` below);
* `src/unnamed/part_003` (frontend/src/components/AddWords.tsx) — useState-based,
  pessimistic submit that parses 409 conflict payloads, with a local in-batch
  duplicate pre-check (namespace `HApp` below).

Strings are modelled as lists of characters (`Str`), JS objects used as string
maps as association lists (`Repl`).  Network interactions are modelled by
passing the response/outcome as an explicit argument and returning the list of
requests issued, so that "performs no network call" is a statement about the
returned request list.
-/

namespace AddTen

/-- A JavaScript string, modelled as its list of characters. -/
abbrev Str := List Char

/-- `word.toLowerCase()` (ASCII model, matching `Char.toLower`). -/
def strLower (s : Str) : Str := s.map Char.toLower

/-- Whitespace predicate used by `trim` (space, tab, CR, LF). -/
def ws (c : Char) : Bool := c.isWhitespace

/-- `word.trim()`: drop whitespace from both ends. -/
def strTrim (s : Str) : Str := List.rdropWhile ws (List.dropWhile ws s)

/-- The conflicts payload `{ db: string[], inBatch: string[] }`. -/
structure ConflictsData where
  db : List Str
  inBatch : List Str
deriving DecidableEq, Repr

/-- The `replacements` JS object: a map from lowercased word keys to
replacement strings, modelled as an association list (new entries are
prepended, so lookup sees the most recent binding, as JS spread-update does). -/
abbrev Repl := List (Str × Str)

/-- Key lookup in a `Repl` map (`replacements[key]`). -/
def rlookup : Repl → Str → Option Str
  | [], _ => none
  | (k', v) :: m, k => if k' = k then some v else rlookup m k

/-- Component state, shared shape of both variants
(the reducer `State` of `AddWords.tsx`; `part_003` keeps the same fields in
individual `useState` hooks). -/
structure State where
  text : Str
  conflicts : Option ConflictsData
  replacements : Repl
  message : Option String
  loading : Bool
  savedWords : List (Str × Str)
  savedLoading : Bool
  savedError : Option String
deriving DecidableEq, Repr

/-- `initialState` of the reducer variant; `part_003`'s `useState` initial
values are identical. -/
def initialState : State :=
  { text := [], conflicts := none, replacements := [], message := none
    loading := false, savedWords := [], savedLoading := false, savedError := none }

/-- Delimiter class of `part_003`'s `text.split(/[\n,;]+/)`. -/
def isDelim1 (c : Char) : Bool := c == '\n' || c == ',' || c == ';'

/-- Delimiter class of `AddWords.tsx`'s `state.text.split(/[\n,\s;"]+/)`. -/
def isDelim2 (c : Char) : Bool := c == '\n' || c == ',' || c.isWhitespace || c == ';' || c == '"'

/-- `text.split(regex).map(normalize).filter(Boolean).slice(0, 100)`.

`List.splitOnP` produces an empty segment per delimiter occurrence whereas the
JS regex `[...]+` collapses delimiter runs into one split point; the difference
is only extra empty tokens, all of which the `filter(Boolean)` stage removes,
so the composition is the same function. -/
def parsedOf (d : Char → Bool) (text : Str) : List Str :=
  (((text.splitOnP d).map strTrim).filter (fun w => !w.isEmpty)).take 100

/-- `buildFinal` (identical logic in both variants): each parsed word is
replaced by its trimmed replacement when one is present and non-blank,
otherwise the trimmed original is kept.  (`rep && rep.trim()` in
`AddWords.tsx` and the `hasOwnProperty`/`undefined`/`trim` chain of
`part_003` both reduce to: a stored value whose trim is non-empty.) -/
def buildFinal (parsed : List Str) (repl : Repl) : List Str :=
  parsed.map fun w =>
    match rlookup repl (strLower w) with
    | some rep => if !(strTrim rep).isEmpty then strTrim rep else strTrim w
    | none => strTrim w

/-- An HTTP request issued to the word-storage backend
(`POST /words/validate` or `POST /words`). -/
inductive Request where
  | validate (words : List Str)
  | submit (words : List Str)
deriving DecidableEq, Repr

/-- The error value observed by a `catch` block: whether it is an axios/API
error carrying a `response`, and the optional `response.status`,
`response.data.error` and `response.data.conflicts` fields. -/
structure ApiErr where
  isApi : Bool
  status : Option Nat
  errorMsg : Option String
  conflicts : Option ConflictsData
deriving DecidableEq, Repr

/-- `err.response?.data?.error || fallback` guarded by `isApiError(err)`:
a missing or empty (falsy) error string falls back to the default message. -/
def errText (fallback : String) (e : ApiErr) : String :=
  if e.isApi then
    match e.errorMsg with
    | some m => if m = "" then fallback else m
    | none => fallback
  else fallback

/-- Outcome of the `POST /words` persistence call.  On success `part_003`
additionally refreshes the saved-words mirror with a best-effort
`GET /words` whose result (or failure) is `refreshed`. -/
inductive SubmitRes where
  | ok (refreshed : Option (List (Str × Str)))
  | err (e : ApiErr)

namespace RApp

/-! ### `src/src/components/AddWords.tsx` — reducer variant, optimistic submit -/

/-- The reducer's `Action` type. -/
inductive Action where
  | SET_TEXT (text : Str)
  | SET_LOADING (value : Bool)
  | SET_MESSAGE (message : Option String)
  | SET_CONFLICTS (conflicts : Option ConflictsData)
  | SET_REPLACEMENTS (replacements : Repl)
  | RESET_FORM
  | SET_SAVED (words : List (Str × Str))
  | ROLLBACK (snapshot : State)

/-- The authoritative reducer (the TS `default` branch is unreachable because
`Action` is a closed union). -/
def reducer (state : State) (action : Action) : State :=
  match action with
  | .SET_TEXT t => { state with text := t }
  | .SET_LOADING v => { state with loading := v }
  | .SET_MESSAGE m => { state with message := m }
  | .SET_CONFLICTS c => { state with conflicts := c }
  | .SET_REPLACEMENTS r => { state with replacements := r }
  | .RESET_FORM => { state with text := [], conflicts := none, replacements := [] }
  | .SET_SAVED w => { state with savedWords := w }
  | .ROLLBACK snap => snap

/-- `isFinalValid` of the reducer variant: length-10 check and distinct
lowercase forms via `new Set(...).size === 10` (no separate blank check). -/
def isFinalValid (parsed : List Str) (repl : Repl) : Bool :=
  let final := buildFinal parsed repl
  if final.length ≠ 10 then false
  else ((final.map strLower).dedup.length == 10)

/-- Optimistic `submitFinal`.  `store` is the state the queued dispatches
apply to, `snapshot` is the render-closure `state` captured into
`rollbackRef.current` (the two coincide for a direct button invocation, and
differ when `submitFinal` is chained from `handleValidate` after its own
dispatches).  The persistence outcome is `res`; the function returns the
resulting state and the requests issued. -/
def submitFinal (store snapshot : State) (finalWords : List Str) (res : SubmitRes) :
    State × List Request :=
  -- 1. snapshot; 2. optimistic update
  let s := reducer store (.SET_LOADING true)
  let s := reducer s (.SET_MESSAGE (some "Words added successfully!"))
  let s := reducer s .RESET_FORM
  match res with
  | .ok _ =>
      -- 4. success: `onAdded` is an external hook; finally clear loading
      (reducer s (.SET_LOADING false), [.submit finalWords])
  | .err e =>
      -- 5. rollback on failure (`rollbackRef.current` is always non-null here)
      let s := reducer s (.ROLLBACK snapshot)
      let s := reducer s (.SET_MESSAGE (some (errText "Submit failed" e)))
      (reducer s (.SET_LOADING false), [.submit finalWords])

/-- Validation-call outcome: a `{ ok, conflicts }` response body (with the
chained submit outcome for the no-conflict path) or a thrown error. -/
inductive VRes where
  | resp (ok : Bool) (conflicts : Option ConflictsData) (sres : SubmitRes)
  | err (e : ApiErr)

/-- `[...conflicts.db, ...conflicts.inBatch].forEach(k => map[k.toLowerCase()] = "")`:
every key of the union, lowercased, bound to the empty string.  (JS object
assignment overwrites duplicates; since every value is `""` the resulting
map is lookup-equivalent to this association list.) -/
def lowerKeysMap (keys : List Str) : Repl := keys.map fun k => (strLower k, [])

/-- `handleValidate` of the reducer variant: clears message/conflicts, checks
the word count, then calls the validate endpoint; on `!ok && conflicts` it
stores the conflicts payload verbatim and initializes replacements; otherwise
it chains into the optimistic `submitFinal`.  Returns the new state and the
requests issued. -/
def handleValidate (state : State) (env : VRes) : State × List Request :=
  let s := reducer state (.SET_MESSAGE none)
  let s := reducer s (.SET_CONFLICTS none)
  let parsed := parsedOf isDelim2 state.text
  if parsed.length ≠ 10 then
    (reducer s (.SET_MESSAGE (some ("Please enter exactly 10 words. You entered "
      ++ toString parsed.length ++ "."))), [])
  else
    let s := reducer s (.SET_LOADING true)
    match env with
    | .resp ok conflicts sres =>
        match ok, conflicts with
        | false, some c =>
            let map := lowerKeysMap (c.db ++ c.inBatch)
            let s := reducer s (.SET_CONFLICTS (some c))
            let s := reducer s (.SET_REPLACEMENTS map)
            let s := reducer s (.SET_MESSAGE
              (some "Some words are duplicates — please replace them."))
            (reducer s (.SET_LOADING false), [.validate parsed])
        | _, _ =>
            -- no conflict payload to show: submit, snapshotting the render
            -- closure `state` (not the store with queued dispatches applied)
            let final := buildFinal parsed state.replacements
            let (s', reqs) := submitFinal s state final sres
            (reducer s' (.SET_LOADING false), .validate parsed :: reqs)
    | .err e =>
        (reducer (reducer s (.SET_MESSAGE (some (errText "Validation failed" e))))
          (.SET_LOADING false), [.validate parsed])

end RApp

namespace HApp

/-! ### `src/unnamed/part_003` — useState variant: local duplicate pre-check,
pessimistic submit that parses 409 conflict payloads -/

/-- Keys of a JS `Map` built by insertion: first-occurrence order, no
duplicates.  (`seen` accumulates the keys already inserted.) -/
def dedupFirstAux : List Str → List Str → List Str
  | [], _ => []
  | a :: l, seen =>
      if a ∈ seen then dedupFirstAux l seen else a :: dedupFirstAux l (a :: seen)

/-- `inBatchDupKeys`: count lowercase occurrences in `parsed`; the keys whose
count exceeds 1, in first-occurrence order (JS `Map` preserves insertion
order, so `Array.from(counts.entries()).filter(...).map(([k]) => k)` lists
first occurrences). -/
def inBatchDupKeys (parsed : List Str) : List Str :=
  let lowers := parsed.map strLower
  (dedupFirstAux lowers []).filter fun k => decide (1 < lowers.count k)

/-- `initReplacementsFromList`: `keys.forEach(k => map[k.toLowerCase()] = "")`. -/
def initReplacementsFromList (keys : List Str) : Repl :=
  keys.map fun k => (strLower k, [])

/-- `isFinalValid` of `part_003`: exactly 10 entries, no blank entry, and 10
distinct lowercase forms. -/
def isFinalValid (parsed : List Str) (repl : Repl) : Bool :=
  let final := buildFinal parsed repl
  if final.length ≠ 10 then false
  else if final.any (fun f => f.isEmpty) then false
  else ((final.map strLower).dedup.length == 10)

/-- Pessimistic `submitFinal` of `part_003` applied to outcome `res`:
on success the form is cleared and the saved-words mirror refreshed
(best-effort: a failed refresh is ignored); on a 409 API error carrying a
conflicts payload the server's conflicts are stored lowercased and
replacements re-initialized from them; any other failure only surfaces a
message.  `setLoading(true)/setMessage(null)` at entry are overwritten on
every path; the `finally` clears loading. -/
def submitFinal (s : State) (res : SubmitRes) : State :=
  match res with
  | .ok refreshed =>
      let s1 := { s with message := some "Words added successfully!",
                         text := [], conflicts := none, replacements := [],
                         loading := false }
      match refreshed with
      | some arr => { s1 with savedWords := arr }
      | none => s1
  | .err e =>
      match e.isApi, e.status, e.conflicts with
      | true, some 409, some c =>
          let dbList := c.db.map strLower
          let batchList := c.inBatch.map strLower
          { s with conflicts := some ⟨dbList, batchList⟩,
                   replacements := (dbList ++ batchList).map (fun k => (k, [])),
                   message := some "Conflicts detected on submit — please replace highlighted words.",
                   loading := false }
      | _, _, _ =>
          { s with message := some (errText "Submit failed" e), loading := false }

/-- Validation-call outcome for `part_003`'s `handleValidate`: the response's
`conflicts` field (the `ok` field is never read) plus the chained submit
outcome, or a thrown error. -/
inductive VEnv where
  | resp (conflicts : Option ConflictsData) (sres : SubmitRes)
  | fail (e : ApiErr)

/-- `handleValidate` of `part_003`: clears message/conflicts, checks the word
count, short-circuits on locally detected in-batch duplicates without any
network call, otherwise validates against the server; a conflict-reporting
response stores the lowercased conflicts and fresh replacements, a
conflict-free one chains into `submitFinal`, and a thrown error only surfaces
a message.  Returns the new state and the requests issued. -/
def handleValidate (s : State) (env : VEnv) : State × List Request :=
  let s0 := { s with message := none, conflicts := none }
  let parsed := parsedOf isDelim1 s.text
  if parsed.length ≠ 10 then
    ({ s0 with message := some ("Please enter exactly 10 words. You entered "
        ++ toString parsed.length ++ ".") }, [])
  else
    let dups := inBatchDupKeys parsed
    if dups ≠ [] then
      let inBatchLower := dups.map strLower
      ({ s0 with conflicts := some ⟨[], inBatchLower⟩,
                 replacements := initReplacementsFromList inBatchLower,
                 message := some "Please replace the duplicate words shown below." }, [])
    else
      match env with
      | .resp copt sres =>
          let c := copt.getD ⟨[], []⟩
          if !c.db.isEmpty || !c.inBatch.isEmpty then
            -- `map[k.toLowerCase()] === undefined ? (map[...] = "") : null`:
            -- first write wins; all values are `""`, so the map is
            -- lookup-equivalent to binding every lowercased key to `""`.
            ({ s0 with replacements := (c.db ++ c.inBatch).map (fun k => (strLower k, [])),
                       conflicts := some ⟨c.db.map strLower, c.inBatch.map strLower⟩,
                       message := some "Some words are duplicates — please replace them.",
                       loading := false }, [.validate parsed])
          else
            let s' := submitFinal s0 sres
            ({ s' with loading := false },
              [.validate parsed, .submit (buildFinal parsed s0.replacements)])
      | .fail e =>
          ({ s0 with message := some (errText "Validation failed" e), loading := false },
            [.validate parsed])

/-- `handleSubmitReplacements`: re-checks `isFinalValid` and submits the
final list. -/
def handleSubmitReplacements (s : State) (res : SubmitRes) : State :=
  if isFinalValid (parsedOf isDelim1 s.text) s.replacements then
    submitFinal s res
  else
    { s with message := some "Final list must be exactly 10 unique non-empty words." }

/-- Clear button: reset text, conflicts, replacements and message. -/
def clearForm (s : State) : State :=
  { s with text := [], conflicts := none, replacements := [], message := none }

/-- Cancel button of the conflicts editor. -/
def cancelConflicts (s : State) : State :=
  { s with conflicts := none, replacements := [], message := none }

/-- Editing the replacement input labelled by conflict key `k`:
`setReplacements(p => ({ ...p, [k.toLowerCase()]: v }))`. -/
def editReplacement (s : State) (k v : Str) : State :=
  { s with replacements := (strLower k, v) :: s.replacements }

/-- One user/network event of the `part_003` controller.  Guards mirror the
UI: buttons disabled while `loading`, the validate button additionally
requires exactly 10 parsed words, replacement inputs exist only for keys of
the current conflict set, and the submit-replacements button only renders
while the conflicts editor is open. -/
inductive Step : State → State → Prop where
  | setText (s : State) (t : Str) : Step s { s with text := t }
  | loadSaved (s : State) (arr : List (Str × Str)) :
      Step s { s with savedWords := arr, savedLoading := false, savedError := none }
  | loadSavedFail (s : State) :
      Step s { s with savedWords := [], savedLoading := false,
                      savedError := some "Failed to load saved words" }
  | clear (s : State) (h : s.loading = false) : Step s (clearForm s)
  | cancel (s : State) (c : ConflictsData) (h : s.conflicts = some c) :
      Step s (cancelConflicts s)
  | editRepl (s : State) (c : ConflictsData) (k v : Str)
      (hc : s.conflicts = some c) (hk : k ∈ c.db ++ c.inBatch) :
      Step s (editReplacement s k v)
  | validate (s : State) (env : VEnv) (hl : s.loading = false)
      (h10 : (parsedOf isDelim1 s.text).length = 10) :
      Step s (handleValidate s env).1
  | submitRepl (s : State) (res : SubmitRes) (hl : s.loading = false)
      (hc : s.conflicts ≠ none) :
      Step s (handleSubmitReplacements s res)

/-- States reachable from the initial state. -/
def Reachable (s : State) : Prop :=
  Relation.ReflTransGen Step initialState s

end HApp

/-- The lowercase form a `buildFinal` entry takes, as a function of the
word's lowercase key alone (used to show that all occurrences of one key
share one final lowercase form). -/
def keyImage (repl : Repl) (k : Str) : Str :=
  match rlookup repl k with
  | some rep => if !(strTrim rep).isEmpty then strLower (strTrim rep) else k
  | none => k

/-- Union of a conflict set's keys, `db ∪ inBatch`. -/
def ConflictKeys (c : ConflictsData) : List Str := c.db ++ c.inBatch

/-- The replacements/conflicts relationship: whenever a conflict set is
present, its keys are lowercase-normalized and every key of the replacements
map belongs to `db ∪ inBatch`. -/
def ReplInv (s : State) : Prop :=
  ∀ c, s.conflicts = some c →
    (∀ w ∈ ConflictKeys c, strLower w = w) ∧
    (∀ k v, rlookup s.replacements k = some v → k ∈ ConflictKeys c)

/-! ### Concrete inputs used by witnesses and counterexamples -/

/-- Ten distinct comma-separated words. -/
def t10 : Str := "a,b,c,d,e,f,g,h,i,j".data

/-- Ten comma-separated words with `cat` appearing twice. -/
def tdup : Str := "cat,dog,cat,bird,fish,wolf,bear,deer,frog,newt".data

def aKey : Str := "a".data

def catKey : Str := "cat".data

def lionKey : Str := "lion".data

def appleKey : Str := "apple".data

/-- A quiescent state with ten distinct words typed in. -/
def sIdle : State := { initialState with text := t10 }

/-- A quiescent state whose input contains an in-batch duplicate. -/
def sDup : State := { initialState with text := tdup }

/-- A state in conflict review (`a` reported by the server, one empty
replacement entry). -/
def sConf : State :=
  { initialState with text := t10, conflicts := some ⟨[aKey], []⟩,
                      replacements := [(aKey, [])] }

/-- HTTP 409 submit failure carrying a conflicts payload naming `lion`. -/
def err409 : ApiErr :=
  { isApi := true, status := some 409,
    errorMsg := some "Some words already exist",
    conflicts := some ⟨[], [lionKey]⟩ }

/-- A plain network failure (no response object at all). -/
def errNet : ApiErr :=
  { isApi := false, status := none, errorMsg := none, conflicts := none }

/-- Validation response reporting a db conflict on `a`. -/
def c8env1 : HApp.VEnv := .resp (some ⟨[aKey], []⟩) (.ok none)

/-- State after validating `sIdle` against `c8env1`: conflict review on `a`. -/
def c8s2 : State := (HApp.handleValidate sIdle c8env1).1

/-- State after a second validation attempt fails with a network error:
conflicts cleared, stale replacements left behind. -/
def c8S : State := (HApp.handleValidate c8s2 (.fail errNet)).1

/-! ## Theorems -/

theorem toNat_ofNat_valid {n : Nat} (h : n.isValidChar) : (Char.ofNat n).toNat = n := by
  rw [Char.ofNat, dif_pos h]; rfl

/-- `Char.toLower` is idempotent. -/
theorem toLower_toLower (c : Char) : c.toLower.toLower = c.toLower := by
  unfold Char.toLower
  by_cases h : c.toNat ≥ 65 ∧ c.toNat ≤ 90
  · rw [if_pos h]
    have hv : (c.toNat + 32).isValidChar := Or.inl (by omega)
    have ht : (Char.ofNat (c.toNat + 32)).toNat = c.toNat + 32 := toNat_ofNat_valid hv
    rw [if_neg (by omega)]
  · rw [if_neg h, if_neg h]

/-- `toLowerCase` is idempotent on strings. -/
theorem strLower_strLower (s : Str) : strLower (strLower s) = strLower s := by
  simp only [strLower, List.map_map]
  exact List.map_congr_left fun c _ => toLower_toLower c

theorem strLower_mem_lower {l : List Str} {k : Str} (hk : k ∈ l.map strLower) :
    strLower k = k := by
  rcases List.mem_map.1 hk with ⟨w, _, rfl⟩
  exact strLower_strLower w

/-- A trimmed string has no leading whitespace. -/
theorem dropWhile_strTrim (s : Str) : List.dropWhile ws (strTrim s) = strTrim s := by
  unfold strTrim
  set y := List.dropWhile ws s with hy
  have hyy : List.dropWhile ws y = y := by rw [hy]; exact List.dropWhile_idempotent ws s
  rcases hr : List.rdropWhile ws y with _ | ⟨c, t⟩
  · rfl
  · have hpre : List.rdropWhile ws y <+: y := List.rdropWhile_prefix ws y
    rw [hr] at hpre
    rcases hpre with ⟨u, hu⟩
    have hc : ws c = false := by
      rcases hw : y with _ | ⟨d, r⟩
      · rw [hw] at hu; simp at hu
      · have hd : d = c := by
          rw [hw] at hu
          exact (List.cons.injEq _ _ _ _ ▸ hu.symm).1
        rw [hw] at hyy
        by_contra hws
        have : ws d = true := by rw [hd]; simpa using hws
        rw [List.dropWhile_cons_of_pos this] at hyy
        have := congrArg List.length hyy
        have hle := (List.dropWhile_suffix (l := r) ws).length_le
        simp at this
        omega
    rw [List.dropWhile_cons_of_neg (by simp [hc])]

/-- `trim` is idempotent. -/
theorem strTrim_strTrim (s : Str) : strTrim (strTrim s) = strTrim s := by
  have h1 : strTrim (strTrim s) = List.rdropWhile ws (strTrim s) := by
    show List.rdropWhile ws (List.dropWhile ws (strTrim s)) = List.rdropWhile ws (strTrim s)
    rw [dropWhile_strTrim s]
  rw [h1]
  show List.rdropWhile ws (List.rdropWhile ws (List.dropWhile ws s)) = _
  exact List.rdropWhile_idempotent ws _

/-- Tokens produced by `parse` are non-empty and already trimmed, and at most
100 of them are returned. -/
theorem parsedOf_props (d : Char → Bool) (text : Str) :
    (parsedOf d text).length ≤ 100 ∧
      ∀ w ∈ parsedOf d text, w ≠ [] ∧ strTrim w = w := by
  constructor
  · unfold parsedOf
    rw [List.length_take]
    exact Nat.min_le_left _ _
  · intro w hw
    have hw' : w ∈ ((text.splitOnP d).map strTrim).filter (fun w => !w.isEmpty) :=
      List.take_subset _ _ hw
    rcases List.mem_filter.1 hw' with ⟨hmem, hne⟩
    have hnil : w ≠ [] := by
      simpa using hne
    refine ⟨hnil, ?_⟩
    rcases List.mem_map.1 hmem with ⟨v, _, rfl⟩
    exact strTrim_strTrim v

/-- A successful lookup key is a key of the map. -/
theorem rlookup_some_mem {m : Repl} {k v : Str} (h : rlookup m k = some v) :
    k ∈ m.map Prod.fst := by
  induction m with
  | nil => cases h
  | cons p m ih =>
      obtain ⟨k', v'⟩ := p
      by_cases hp : k' = k
      · subst hp; exact List.mem_cons_self _ _
      · rw [rlookup, if_neg hp] at h
        exact List.mem_cons_of_mem _ (ih h)

/-- In a map all of whose values are the empty string, lookup returns `some ""`
exactly on the map's keys. -/
theorem rlookup_blank_map {m : Repl} (hall : ∀ p ∈ m, p.2 = ([] : Str)) (k : Str) :
    rlookup m k = if k ∈ m.map Prod.fst then some [] else none := by
  induction m with
  | nil => simp [rlookup]
  | cons p m ih =>
      obtain ⟨k', v'⟩ := p
      have hv' : v' = [] := hall (k', v') (List.mem_cons_self _ _)
      have ihm := ih fun q hq => hall q (List.mem_cons_of_mem _ hq)
      by_cases hp : k' = k
      · subst hp hv'
        rw [rlookup, if_pos rfl, if_pos (by simp)]
      · rw [rlookup, if_neg hp, ihm]
        by_cases hm : k ∈ m.map Prod.fst
        · rw [if_pos hm, if_pos (by simp [hm])]
        · rw [if_neg hm, if_neg (by simp [hm, Ne.symm hp])]

/-- Every element of the input ends up in the accumulator or in the output of
`dedupFirstAux`. -/
theorem mem_dedupFirstAux {l : List Str} {k : Str} (hk : k ∈ l) (seen : List Str) :
    k ∈ seen ∨ k ∈ HApp.dedupFirstAux l seen := by
  induction l generalizing seen with
  | nil => cases hk
  | cons a l ih =>
      by_cases ha : a ∈ seen
      · rw [HApp.dedupFirstAux, if_pos ha]
        rcases List.mem_cons.1 hk with rfl | hk'
        · exact Or.inl ha
        · exact ih hk' seen
      · rw [HApp.dedupFirstAux, if_neg ha]
        rcases List.mem_cons.1 hk with rfl | hk'
        · exact Or.inr (List.mem_cons_self _ _)
        · rcases ih hk' (a :: seen) with h | h
          · rcases List.mem_cons.1 h with rfl | h2
            · exact Or.inr (List.mem_cons_self _ _)
            · exact Or.inl h2
          · exact Or.inr (List.mem_cons_of_mem _ h)

/-- A key of multiplicity above one is listed by `inBatchDupKeys`. -/
theorem mem_inBatchDupKeys {parsed : List Str} {k : Str}
    (h : 1 < (parsed.map strLower).count k) : k ∈ HApp.inBatchDupKeys parsed := by
  have hkmem : k ∈ parsed.map strLower := List.count_pos_iff.1 (by omega)
  have hdd : k ∈ HApp.dedupFirstAux (parsed.map strLower) [] := by
    rcases mem_dedupFirstAux hkmem [] with h' | h'
    · cases h'
    · exact h'
  unfold HApp.inBatchDupKeys
  exact List.mem_filter.2 ⟨hdd, by simpa using h⟩

theorem inBatchDupKeys_ne_nil {parsed : List Str} {k : Str}
    (h : 1 < (parsed.map strLower).count k) : HApp.inBatchDupKeys parsed ≠ [] :=
  List.ne_nil_of_mem (mem_inBatchDupKeys h)

/-- `new Set(l).size == l.length` is exactly freedom from duplicates. -/
theorem dedup_length_eq_iff {α : Type} [DecidableEq α] {l : List α} :
    l.dedup.length = l.length ↔ l.Nodup := by
  constructor
  · intro h
    have := (List.dedup_sublist l).eq_of_length h
    rw [← this]
    exact List.nodup_dedup l
  · intro h
    rw [List.dedup_eq_self.2 h]

/-- Mapping a list can only merge occurrences: the image of `x` occurs at
least as often in the image list. -/
theorem count_map_le (l : List Str) (f : Str → Str) (x : Str) :
    l.count x ≤ (l.map f).count (f x) := by
  induction l with
  | nil => simp
  | cons a l ih =>
      rw [List.map_cons, List.count_cons, List.count_cons]
      by_cases h : a = x
      · have h1 : (a == x) = true := beq_iff_eq.2 h
        have h2 : (f a == f x) = true := beq_iff_eq.2 (by rw [h])
        simp only [h1, h2, if_pos]
        omega
      · have h1 : (a == x) = false := beq_eq_false_iff_ne.2 h
        simp only [h1, Bool.false_eq_true, if_false, Nat.add_zero]
        by_cases hf : f a = f x
        · have h2 : (f a == f x) = true := beq_iff_eq.2 hf
          simp only [h2, if_pos]
          omega
        · have h2 : (f a == f x) = false := beq_eq_false_iff_ne.2 hf
          simp only [h2, Bool.false_eq_true, if_false, Nat.add_zero]
          exact ih

/-- A key of multiplicity above one witnesses a duplicate. -/
theorem not_nodup_of_one_lt_count {l : List Str} {x : Str} (h : 1 < l.count x) :
    ¬ l.Nodup := by
  intro hnd
  induction l with
  | nil => simp at h
  | cons a l ih =>
      rw [List.count_cons] at h
      rcases List.nodup_cons.1 hnd with ⟨ha, hl⟩
      by_cases hax : a == x
      · have : a = x := beq_iff_eq.1 hax
        subst this
        have hc : 0 < l.count a := by
          simp only [hax, if_pos] at h
          omega
        exact ha (List.count_pos_iff.1 hc)
      · have h1 : (a == x) = false := by
          simpa using hax
        simp only [h1, Bool.false_eq_true, if_false, Nat.add_zero] at h
        exact ih h hl

/-- On a list of trimmed tokens, the lowercase forms of the final entries are
the `keyImage`s of the tokens' lowercase keys. -/
theorem buildFinal_lower_map {parsed : List Str}
    (hfix : ∀ w ∈ parsed, strTrim w = w) (repl : Repl) :
    (buildFinal parsed repl).map strLower =
      (parsed.map strLower).map (keyImage repl) := by
  unfold buildFinal
  rw [List.map_map, List.map_map]
  refine List.map_congr_left fun w hw => ?_
  have hfw := hfix w hw
  show strLower (match rlookup repl (strLower w) with
    | some rep => if !(strTrim rep).isEmpty then strTrim rep else strTrim w
    | none => strTrim w) = keyImage repl (strLower w)
  unfold keyImage
  cases hlk : rlookup repl (strLower w) with
  | none => rw [hfw]
  | some rep =>
      by_cases hb : (strTrim rep).isEmpty
      · simp [hb, hfw]
      · simp [hb]

theorem replInv_of_conflicts_none {s : State} (h : s.conflicts = none) : ReplInv s := by
  intro c hc
  rw [h] at hc
  cases hc

theorem replInv_submitFinal {s : State} (hs : ReplInv s) (res : SubmitRes) :
    ReplInv (HApp.submitFinal s res) := by
  cases res with
  | ok refreshed =>
      cases refreshed with
      | none => exact replInv_of_conflicts_none rfl
      | some arr => exact replInv_of_conflicts_none rfl
  | err e =>
      simp only [HApp.submitFinal]
      split
      · next c =>
          intro c' hc'
          injection hc' with hc''
          subst hc''
          constructor
          · intro w hw
            rcases List.mem_append.1 hw with h' | h'
            · exact strLower_mem_lower h'
            · exact strLower_mem_lower h'
          · intro k v hk
            have := rlookup_some_mem hk
            simpa [ConflictKeys, List.map_map] using this
      · intro c hc
        exact hs c hc



theorem replInv_loading {s : State} (hs : ReplInv s) (b : Bool) :
    ReplInv { s with loading := b } := fun c hc => hs c hc

theorem replInv_handleValidate (s : State) (env : HApp.VEnv) :
    ReplInv (HApp.handleValidate s env).1 := by
  cases env with
  | resp copt sres =>
      simp only [HApp.handleValidate]
      split
      · exact replInv_of_conflicts_none rfl
      · split
        · intro c hc
          injection hc with hc'
          subst hc'
          constructor
          · intro w hw
            simp only [ConflictKeys, List.nil_append] at hw
            exact strLower_mem_lower hw
          · intro k v hk
            have hmem := rlookup_some_mem hk
            simp only [HApp.initReplacementsFromList, List.map_map] at hmem
            simp only [ConflictKeys, List.nil_append]
            have hid : ((HApp.inBatchDupKeys (parsedOf isDelim1 s.text)).map strLower).map strLower
                = (HApp.inBatchDupKeys (parsedOf isDelim1 s.text)).map strLower := by
              rw [List.map_map]
              exact List.map_congr_left fun w _ => strLower_strLower w
            rw [← hid]
            simpa [List.map_map] using hmem
        · split
          · intro c hc
            injection hc with hc'
            subst hc'
            constructor
            · intro w hw
              rcases List.mem_append.1 hw with h' | h'
              · exact strLower_mem_lower h'
              · exact strLower_mem_lower h'
            · intro k v hk
              have := rlookup_some_mem hk
              simpa [ConflictKeys, List.map_map, List.map_append] using this
          · exact replInv_loading
              (replInv_submitFinal (replInv_of_conflicts_none rfl) sres) false
  | fail e =>
      simp only [HApp.handleValidate]
      split
      · exact replInv_of_conflicts_none rfl
      · split
        · intro c hc
          injection hc with hc'
          subst hc'
          constructor
          · intro w hw
            simp only [ConflictKeys, List.nil_append] at hw
            exact strLower_mem_lower hw
          · intro k v hk
            have hmem := rlookup_some_mem hk
            simp only [HApp.initReplacementsFromList, List.map_map] at hmem
            simp only [ConflictKeys, List.nil_append]
            have hid : ((HApp.inBatchDupKeys (parsedOf isDelim1 s.text)).map strLower).map strLower
                = (HApp.inBatchDupKeys (parsedOf isDelim1 s.text)).map strLower := by
              rw [List.map_map]
              exact List.map_congr_left fun w _ => strLower_strLower w
            rw [← hid]
            simpa [List.map_map] using hmem
        · exact replInv_of_conflicts_none rfl



theorem replInv_step {s s' : State} (h : HApp.Step s s') (hs : ReplInv s) :
    ReplInv s' := by
  cases h with
  | setText t => exact fun c hc => hs c hc
  | loadSaved arr => exact fun c hc => hs c hc
  | loadSavedFail => exact fun c hc => hs c hc
  | clear hl => exact replInv_of_conflicts_none rfl
  | cancel c hc => exact replInv_of_conflicts_none rfl
  | editRepl c k v hc hk =>
      intro c' hc'
      have hc2 : s.conflicts = some c' := hc'
      obtain ⟨hfix, hsub⟩ := hs c' hc2
      refine ⟨hfix, fun k' v' hk' => ?_⟩
      have hred : rlookup ((strLower k, v) :: s.replacements) k' = some v' := hk'
      by_cases he : strLower k = k'
      · have hcc : c = c' := by
          rw [hc] at hc2
          injection hc2
        subst hcc
        have hkk : strLower k = k := hfix k hk
        rw [← he, hkk]
        exact hk
      · rw [rlookup, if_neg he] at hred
        exact hsub k' v' hred
  | validate env hl h10 => exact replInv_handleValidate s env
  | submitRepl res hl hc =>
      unfold HApp.handleSubmitReplacements
      split
      · exact replInv_submitFinal hs res
      · exact fun c hcc => hs c hcc

/-! ## Claim theorems -/

/-- C6: For every raw input string, `parse` splits it on runs of the delimiter
characters (newline, comma, semicolon in `part_003`; additionally whitespace
and quote in `AddWords.tsx`), trims each token, discards empty tokens and
truncates to the first 100 tokens; it is a pure total function (a Lean `def`)
that never returns more than 100 tokens, and every returned token is
non-empty and trimmed. -/
theorem c6_parse_bounded_trimmed (text : Str) :
    ((parsedOf isDelim1 text).length ≤ 100 ∧
      ∀ w ∈ parsedOf isDelim1 text, w ≠ [] ∧ strTrim w = w) ∧
    ((parsedOf isDelim2 text).length ≤ 100 ∧
      ∀ w ∈ parsedOf isDelim2 text, w ≠ [] ∧ strTrim w = w) :=
  ⟨parsedOf_props isDelim1 text, parsedOf_props isDelim2 text⟩

/-- C10: For every state (raw input and replacements map), `buildFinal`
returns a list of exactly the same length as the parsed list, and every entry
is non-empty and equal to its own trim. -/
theorem c10_buildFinal_length_nonblank (text : Str) (repl : Repl) :
    (buildFinal (parsedOf isDelim2 text) repl).length = (parsedOf isDelim2 text).length ∧
    ∀ w ∈ buildFinal (parsedOf isDelim2 text) repl, w ≠ [] ∧ strTrim w = w := by
  refine ⟨List.length_map _ _, fun w hw => ?_⟩
  unfold buildFinal at hw
  rcases List.mem_map.1 hw with ⟨v, hv, rfl⟩
  have hv' := (parsedOf_props isDelim2 text).2 v hv
  cases hlk : rlookup repl (strLower v) with
  | none =>
      simp only [hlk]
      rw [hv'.2]
      exact ⟨hv'.1, hv'.2⟩
  | some rep =>
      by_cases hb : (strTrim rep).isEmpty
      · simp only [hlk, hb, Bool.not_true, Bool.false_eq_true, if_false]
        rw [hv'.2]
        exact ⟨hv'.1, hv'.2⟩
      · simp only [hlk, Bool.not_eq_true] at hb ⊢
        simp only [hb, Bool.not_false, if_true]
        refine ⟨?_, strTrim_strTrim rep⟩
        intro hnil
        rw [hnil] at hb
        cases hb

/-- C5: For every state, `part_003`'s `isFinalValid()` returns true iff the
derived final word list has exactly 10 entries, none blank, and exactly 10
pairwise-distinct lowercase forms (distinctness stated as `Nodup` of the
lowercased list). -/
theorem c5_isFinalValid_iff (parsed : List Str) (repl : Repl) :
    HApp.isFinalValid parsed repl = true ↔
      ((buildFinal parsed repl).length = 10 ∧
       (∀ w ∈ buildFinal parsed repl, w ≠ []) ∧
       ((buildFinal parsed repl).map strLower).Nodup) := by
  simp only [HApp.isFinalValid]
  constructor
  · intro h
    by_cases h1 : (buildFinal parsed repl).length = 10
    · by_cases h2 : (buildFinal parsed repl).any (fun f => f.isEmpty) = true
      · rw [if_neg (by simp [h1]), if_pos h2] at h
        cases h
      · rw [if_neg (by simp [h1]), if_neg h2] at h
        have h2' : (buildFinal parsed repl).any (fun f => f.isEmpty) = false :=
          Bool.eq_false_iff.2 h2
        refine ⟨h1, ?_, ?_⟩
        · intro w hw
          have := List.any_eq_false.1 h2' w hw
          simpa [List.isEmpty_iff] using this
        · have hlen : ((buildFinal parsed repl).map strLower).dedup.length = 10 := by
            simpa using h
          have hml : ((buildFinal parsed repl).map strLower).length = 10 := by
            simp [h1]
          exact dedup_length_eq_iff.1 (by rw [hlen, hml])
    · rw [if_pos (by simp [h1])] at h
      cases h
  · rintro ⟨h1, h2, h3⟩
    have h2' : (buildFinal parsed repl).any (fun f => f.isEmpty) = false := by
      rw [List.any_eq_false]
      intro w hw
      simp only [List.isEmpty_iff]
      exact h2 w hw
    rw [if_neg (by simp [h1]), if_neg (by simp [h2'])]
    have : ((buildFinal parsed repl).map strLower).dedup.length = 10 := by
      rw [List.dedup_eq_self.2 h3]
      simp [h1]
    simpa using this

/-- C3: For every submit in the optimistic protocol that fails with a non-409
error, the controller restores the full pre-optimistic-update state from the
snapshot — in particular the raw input text byte-for-byte — surfaces an error
message, and clears the submitting flag at the end. -/
theorem c3_non409_failure_rolls_back (store snapshot : State) (finalWords : List Str)
    (e : ApiErr) (h : e.status ≠ some 409) :
    (RApp.submitFinal store snapshot finalWords (.err e)).1 =
      { snapshot with message := some (errText "Submit failed" e), loading := false } ∧
    (RApp.submitFinal store snapshot finalWords (.err e)).1.text = snapshot.text :=
  ⟨rfl, rfl⟩

/-- Witness for C3 at a concrete state and network error. -/
theorem c3_witness :
    errNet.status ≠ some 409 ∧
    (RApp.submitFinal sIdle sIdle (parsedOf isDelim2 t10) (.err errNet)).1.text = sIdle.text :=
  ⟨by decide,
    (c3_non409_failure_rolls_back sIdle sIdle (parsedOf isDelim2 t10) errNet (by decide)).2⟩

/-- C1 counterexample: a submit through the optimistic `submitFinal` of
`AddWords.tsx` fails with HTTP 409 carrying the conflicts payload
`{ db: [], inBatch: ["lion"] }`; the optimistic reset is undone (the input
text is restored), but the resulting state's ConflictSet is the snapshot's
(`none`), not the server payload, and Replacements stays empty — no
conflict-review state with `"lion"` editable is entered. -/
theorem c1_counterexample :
    err409.status = some 409 ∧
    err409.conflicts = some ⟨[], [lionKey]⟩ ∧
    (RApp.submitFinal sIdle sIdle (parsedOf isDelim2 t10) (.err err409)).1.text = sIdle.text ∧
    (RApp.submitFinal sIdle sIdle (parsedOf isDelim2 t10) (.err err409)).1.conflicts = none ∧
    ¬((RApp.submitFinal sIdle sIdle (parsedOf isDelim2 t10) (.err err409)).1.conflicts
        = some ⟨[], [lionKey]⟩) ∧
    (RApp.submitFinal sIdle sIdle (parsedOf isDelim2 t10) (.err err409)).1.replacements = [] := by
  decide

/-- C1 amended: when the optimistic submit fails with a 409 response carrying
a conflicts payload, the controller undoes the optimistic reset by restoring
the whole snapshot (input state, conflict state and replacements all come from
the snapshot, not from the payload), surfaces the response's error message and
clears the submitting flag. -/
theorem c1_amended_409_restores_snapshot (store snapshot : State) (finalWords : List Str)
    (e : ApiErr) (h409 : e.status = some 409) (hc : e.conflicts ≠ none) :
    (RApp.submitFinal store snapshot finalWords (.err e)).1 =
      { snapshot with message := some (errText "Submit failed" e), loading := false } :=
  rfl

/-- Witness for the amended C1 at a concrete 409 failure. -/
theorem c1_witness :
    (RApp.submitFinal sIdle sIdle (parsedOf isDelim2 t10) (.err err409)).1 =
      { sIdle with message := some (errText "Submit failed" err409), loading := false } :=
  c1_amended_409_restores_snapshot sIdle sIdle (parsedOf isDelim2 t10) err409 rfl (by decide)

/-- C7 counterexample: `handleValidate` is invoked in a state already holding
a conflict set; the validation call fails, and the resulting conflict set is
`none` — changed from the pre-call state (it is cleared at entry), not left
unchanged. -/
theorem c7_counterexample :
    sConf.conflicts = some ⟨[aKey], []⟩ ∧
    (RApp.handleValidate sConf (.err errNet)).1.conflicts = none ∧
    (RApp.handleValidate sConf (.err errNet)).1.conflicts ≠ sConf.conflicts := by
  decide

/-- C7 amended: when the validation call fails, `handleValidate` surfaces a
message, leaves the conflict set cleared (it clears it unconditionally at
entry and the failure path creates no conflict state), clears the loading
flag, and has issued exactly the one validation request, so the user can
retry from the same screen. -/
theorem c7_amended_failure_clears_conflicts (s : State) (e : ApiErr)
    (h10 : (parsedOf isDelim2 s.text).length = 10) :
    RApp.handleValidate s (.err e) =
      ({ s with message := some (errText "Validation failed" e),
                conflicts := none, loading := false },
        [.validate (parsedOf isDelim2 s.text)]) := by
  simp only [RApp.handleValidate]
  rw [if_neg (by simp [h10])]
  rfl

/-- Witness for the amended C7 at a concrete state and failure. -/
theorem c7_witness :
    RApp.handleValidate sConf (.err errNet) =
      ({ sConf with message := some (errText "Validation failed" errNet),
                    conflicts := none, loading := false },
        [.validate (parsedOf isDelim2 sConf.text)]) :=
  c7_amended_failure_clears_conflicts sConf errNet (by decide)

/-- C2: Whenever the parsed list has exactly 10 tokens and some lowercase key
occurs more than once, `handleValidate` short-circuits for every possible
network environment: it sets the conflict set to the locally detected
in-batch keys with an empty db set, initializes replacements with an empty
string for each conflicting key, surfaces the replace-duplicates message, and
issues no request. -/
theorem c2_local_duplicates_short_circuit (s : State) (env : HApp.VEnv) (k : Str)
    (h10 : (parsedOf isDelim1 s.text).length = 10)
    (hdup : 1 < ((parsedOf isDelim1 s.text).map strLower).count k) :
    HApp.handleValidate s env =
      ({ s with
          conflicts := some ⟨[], (HApp.inBatchDupKeys (parsedOf isDelim1 s.text)).map strLower⟩,
          replacements := HApp.initReplacementsFromList
            ((HApp.inBatchDupKeys (parsedOf isDelim1 s.text)).map strLower),
          message := some "Please replace the duplicate words shown below." },
        []) ∧
    ∀ k' ∈ (HApp.inBatchDupKeys (parsedOf isDelim1 s.text)).map strLower,
      rlookup (HApp.initReplacementsFromList
        ((HApp.inBatchDupKeys (parsedOf isDelim1 s.text)).map strLower)) k' = some [] := by
  have hne : HApp.inBatchDupKeys (parsedOf isDelim1 s.text) ≠ [] := inBatchDupKeys_ne_nil hdup
  constructor
  · cases env with
    | resp copt sres =>
        simp only [HApp.handleValidate]
        rw [if_neg (by simp [h10]), if_pos hne]
    | fail e =>
        simp only [HApp.handleValidate]
        rw [if_neg (by simp [h10]), if_pos hne]
  · intro k' hk'
    rw [rlookup_blank_map (m := HApp.initReplacementsFromList
        ((HApp.inBatchDupKeys (parsedOf isDelim1 s.text)).map strLower))
        (by intro p hp
            unfold HApp.initReplacementsFromList at hp
            rcases List.mem_map.1 hp with ⟨x, _, rfl⟩
            rfl) k']
    rw [if_pos]
    unfold HApp.initReplacementsFromList
    rw [List.map_map]
    rcases List.mem_map.1 hk' with ⟨d, hd, rfl⟩
    refine List.mem_map.2 ⟨strLower d, List.mem_map.2 ⟨d, hd, rfl⟩, ?_⟩
    show strLower (strLower d) = strLower d
    exact strLower_strLower d

/-- Witness for C2: input with `cat` twice among ten tokens; no request is
issued and the conflict set lists exactly the key `cat`. -/
theorem c2_witness :
    (HApp.handleValidate sDup (.fail errNet)).2 = [] ∧
    (HApp.handleValidate sDup (.fail errNet)).1.conflicts = some ⟨[], [catKey]⟩ := by
  have h := (c2_local_duplicates_short_circuit sDup (.fail errNet) catKey
    (by decide) (by decide)).1
  rw [h]
  constructor
  · rfl
  · decide

/-- C4: On a validation response reporting conflicts (at least one of
db/inBatch non-empty, with 10 locally duplicate-free tokens), `part_003`'s
`handleValidate` stores the conflict set lowercased, initializes the
replacements map with an empty-string entry for every key of the db/inBatch
union, surfaces the duplicates message, and has issued the one validation
request. -/
theorem c4_conflict_response_normalized (s : State) (c : ConflictsData) (sres : SubmitRes)
    (h10 : (parsedOf isDelim1 s.text).length = 10)
    (hnd : HApp.inBatchDupKeys (parsedOf isDelim1 s.text) = [])
    (hne : c.db ≠ [] ∨ c.inBatch ≠ []) :
    HApp.handleValidate s (.resp (some c) sres) =
      ({ s with replacements := (c.db ++ c.inBatch).map (fun k => (strLower k, [])),
                conflicts := some ⟨c.db.map strLower, c.inBatch.map strLower⟩,
                message := some "Some words are duplicates — please replace them.",
                loading := false },
        [.validate (parsedOf isDelim1 s.text)]) ∧
    ∀ k ∈ c.db ++ c.inBatch,
      rlookup ((c.db ++ c.inBatch).map (fun k => (strLower k, []))) (strLower k) = some [] := by
  constructor
  · simp only [HApp.handleValidate]
    rw [if_neg (by simp [h10]), if_neg (by simp [hnd])]
    have hcond : (!c.db.isEmpty || !c.inBatch.isEmpty) = true := by
      rcases hne with h | h <;> simp [List.isEmpty_iff, h]
    simp only [Option.getD_some]
    rw [if_pos hcond]
  · intro k hk
    rw [rlookup_blank_map (m := (c.db ++ c.inBatch).map (fun k => (strLower k, [])))
        (by intro p hp
            rcases List.mem_map.1 hp with ⟨x, _, rfl⟩
            rfl) (strLower k)]
    rw [if_pos]
    rw [List.map_map]
    exact List.mem_map.2 ⟨k, hk, rfl⟩

/-- Witness for C4 at the spec's example response
`{ ok: false, conflicts: { db: ["apple"], inBatch: [] } }`. -/
theorem c4_witness :
    (HApp.handleValidate sIdle (.resp (some ⟨[appleKey], []⟩) (.ok none))).1.conflicts
        = some ⟨[appleKey], []⟩ ∧
    rlookup (HApp.handleValidate sIdle
        (.resp (some ⟨[appleKey], []⟩) (.ok none))).1.replacements appleKey = some [] := by
  have h := c4_conflict_response_normalized sIdle ⟨[appleKey], []⟩ (.ok none)
    (by decide) (by decide) (Or.inl (by decide))
  rw [h.1]
  exact ⟨by decide, by decide⟩

/-- C9: Whenever the parsed list contains a lowercase key of multiplicity
above one, `isFinalValid()` of `AddWords.tsx` is false for every possible
replacements map: replacements are keyed by the lowercase key, so all
occurrences of a duplicated key share one final lowercase form. -/
theorem c9_duplicate_key_never_valid (text : Str) (repl : Repl) (k : Str)
    (hdup : 1 < ((parsedOf isDelim2 text).map strLower).count k) :
    RApp.isFinalValid (parsedOf isDelim2 text) repl = false := by
  have hfix : ∀ w ∈ parsedOf isDelim2 text, strTrim w = w :=
    fun w hw => ((parsedOf_props isDelim2 text).2 w hw).2
  have hmap : (buildFinal (parsedOf isDelim2 text) repl).map strLower
      = ((parsedOf isDelim2 text).map strLower).map (keyImage repl) :=
    buildFinal_lower_map hfix repl
  have hcount : 1 < ((buildFinal (parsedOf isDelim2 text) repl).map strLower).count
      (keyImage repl k) := by
    rw [hmap]
    exact lt_of_lt_of_le hdup (count_map_le _ (keyImage repl) k)
  have hnodup : ¬ ((buildFinal (parsedOf isDelim2 text) repl).map strLower).Nodup :=
    not_nodup_of_one_lt_count hcount
  simp only [RApp.isFinalValid]
  by_cases h10 : (buildFinal (parsedOf isDelim2 text) repl).length = 10
  · rw [if_neg (by simp [h10])]
    rw [beq_eq_false_iff_ne]
    intro hdl
    have hml : ((buildFinal (parsedOf isDelim2 text) repl).map strLower).length = 10 := by
      simp [h10]
    exact hnodup (dedup_length_eq_iff.1 (by rw [hdl, hml]))
  · rw [if_pos (by simp [h10])]

/-- Witness for C9: `cat` occurs twice; even with a replacement supplied for
`cat`, the final list is invalid. -/
theorem c9_witness :
    1 < ((parsedOf isDelim2 tdup).map strLower).count catKey ∧
    RApp.isFinalValid (parsedOf isDelim2 tdup) [(catKey, "feline".data)] = false :=
  ⟨by decide, c9_duplicate_key_never_valid tdup [(catKey, "feline".data)] catKey (by decide)⟩

/-- C8 counterexample: a reachable state (type ten words, validate against a
server-reported conflict on `a`, then validate again and have the call fail)
whose conflict set is absent while the replacements map still holds the stale
entry for `a` — so replacements are not empty whenever the conflict set is
absent. -/
theorem c8_counterexample :
    HApp.Reachable c8S ∧ c8S.conflicts = none ∧ c8S.replacements ≠ [] := by
  refine ⟨?_, by decide, by decide⟩
  have h1 : HApp.Step initialState sIdle := HApp.Step.setText initialState t10
  have h2 : HApp.Step sIdle c8s2 := HApp.Step.validate sIdle c8env1 (by decide) (by decide)
  have h3 : HApp.Step c8s2 c8S :=
    HApp.Step.validate c8s2 (.fail errNet) (by decide) (by decide)
  exact Relation.ReflTransGen.tail
    (Relation.ReflTransGen.tail (Relation.ReflTransGen.single h1) h2) h3

/-- C8 amended: in every reachable state in which a conflict set is present,
the keys of the replacements map are a subset of the union of the conflict
set's db and inBatch keys (which are lowercase-normalized), and the
text-clear and cancel actions reset replacements to empty; however, after a
failed validation the conflict set is cleared while stale replacements may
persist, so replacements need not be empty when the conflict set is absent. -/
theorem c8_amended_invariant (s : State) (h : HApp.Reachable s) :
    ReplInv s ∧ (HApp.clearForm s).replacements = [] ∧
      (HApp.cancelConflicts s).replacements = [] := by
  refine ⟨?_, rfl, rfl⟩
  induction h with
  | refl => exact replInv_of_conflicts_none rfl
  | tail hab hbc ih => exact replInv_step hbc ih

/-- Witness for the amended C8 at the initial state. -/
theorem c8_witness :
    ReplInv initialState ∧ (HApp.clearForm initialState).replacements = [] ∧
      (HApp.cancelConflicts initialState).replacements = [] :=
  c8_amended_invariant initialState Relation.ReflTransGen.refl

end AddTen
